import Mathlib

/-!
Verification of the feature-dependency and scheduling core of the
`autoforge` repository, as implemented in `src/mcp_server/feature_mcp.py`.

The feature store is a SQLite table of rows; we embed it as a list of
`Feature` records.  The guarded SQL `UPDATE ... WHERE` statements become
map-with-condition over the list together with the count of matched rows
(`rowcount`).  Every MCP tool returns either a JSON payload or a JSON
error object; we embed that as `MCPResult`.

The cycle detector and the scheduling ranker live in
`api/dependency_resolver.py`, which is not part of the sources available
here (only its test suite and its caller `feature_mcp.py` are); those two
functions are modelled from the specification, as marked on their
definitions.
-/
/-- A row of the `features` table (`api.database.Feature`).
`dependencies` is a nullable JSON column holding a list of feature ids;
the code reads it as `feature.dependencies or []`. -/
structure Feature where
  id : Nat
  priority : Int
  category : String
  name : String
  description : String
  steps : List String
  passes : Bool
  in_progress : Bool
  dependencies : Option (List Nat)
  deriving DecidableEq, Repr

/-- The feature table. `id` is the primary key, so in any real database
state the ids of the rows are pairwise distinct; theorems that depend on
this carry a `DBWellFormed` hypothesis. -/
abbrev DB := List Feature

/-- The ids of the rows are pairwise distinct (`id` is the primary key). -/
def DBWellFormed (db : DB) : Prop := (db.map Feature.id).Nodup

instance : DecidablePred DBWellFormed := fun db =>
  inferInstanceAs (Decidable ((db.map Feature.id).Nodup))

/-- `feature.dependencies or []`. -/
def depsOf (f : Feature) : List Nat := f.dependencies.getD []

/-- `session.query(Feature).filter(Feature.id == i).first()`. -/
def findFeature (db : DB) (i : Nat) : Option Feature :=
  db.find? (fun f => f.id == i)

/-- Dependency list of the row with id `i` (empty when no such row). -/
def depsOfId (db : DB) (i : Nat) : List Nat :=
  (findFeature db i).elim [] depsOf

/-- The dependency edge relation of the stored graph: `Edge db a b` holds
when the feature with id `a` lists `b` among its dependencies. -/
def Edge (db : DB) (a b : Nat) : Prop := b ∈ depsOfId db a

instance (db : DB) (a b : Nat) : Decidable (Edge db a b) :=
  inferInstanceAs (Decidable (b ∈ depsOfId db a))

/-- The transitively closed dependency relation contains a cycle. -/
def HasCycle (db : DB) : Prop := ∃ a, Relation.TransGen (Edge db) a a

/-- The dependency graph is acyclic. -/
def Acyclic (db : DB) : Prop := ¬ HasCycle db

/-- A guarded `UPDATE features SET ... WHERE p` statement: applies `g` to
every row matching `p` and also returns `rowcount`, the number of matched
rows. -/
def updateWhere (db : DB) (p : Feature → Bool) (g : Feature → Feature) :
    DB × Nat :=
  (db.map (fun f => if p f then g f else f), db.countP p)

/-- `SELECT COALESCE(MAX(priority), 0) FROM features`: the maximum
priority of the table, `0` when the table is empty. -/
def maxPriority (db : DB) : Int :=
  match db.map Feature.priority with
  | [] => 0
  | p :: ps => ps.foldl max p

/-- The result of an MCP tool call: a JSON payload or a JSON
`{"error": msg}` object. -/
inductive MCPResult (α : Type) : Type where
  | ok (value : α)
  | error (msg : String)
  deriving DecidableEq, Repr

/-! ## Bounded reachability closure

`api/dependency_resolver.py` is not among the available sources; the
specification prescribes, for both the cycle detector and the scheduling
ranker, a bounded BFS/DFS with a visited set over a (possibly already
cyclic) graph.  We embed that traversal generically: `stepSet` expands a
visited set by one level of the adjacency, and `closureFrom` iterates it
enough times to reach a fixed point on any graph whose edges stay inside
a finite universe. -/
/-- One BFS level: the visited set together with every direct successor
of a visited node. -/
def stepSet (adj : Nat → List Nat) (s : Finset Nat) : Finset Nat :=
  s ∪ s.biUnion (fun a => (adj a).toFinset)

/-- `n` BFS levels starting from the visited set `s`. -/
def iterStep (adj : Nat → List Nat) : Nat → Finset Nat → Finset Nat
  | 0, s => s
  | n + 1, s => iterStep adj n (stepSet adj s)

/-- The set of nodes reachable from `start` by following `adj` edges,
computed by a bounded traversal with `fuel` expansion rounds. -/
def closureFrom (adj : Nat → List Nat) (fuel : Nat) (start : Nat) :
    Finset Nat :=
  iterStep adj fuel {start}

/-- The one-step relation of an adjacency function. -/
def AdjRel (adj : Nat → List Nat) (a b : Nat) : Prop := b ∈ adj a

/-- Every id mentioned by the table: row ids and dependency entries.
Bounds the node universe of the stored graph. -/
def allNodes (db : DB) : List Nat :=
  db.flatMap (fun f => f.id :: depsOf f)

/-- Enough traversal rounds to close the reachable set of the stored
graph. -/
def cycleFuel (db : DB) : Nat := (allNodes db).length + 1

/-- Modelled from the spec:
`api.dependency_resolver.would_create_circular_dependency(graph,
source_id, target_id)` is missing from the available sources.  Per spec
§4.2 it evaluates, without mutation, whether adding the edge "source
depends on target" closes a cycle: true iff `source == target` or
`source` is already transitively reachable from `target` along existing
dependency edges, via a bounded BFS with a visited set that terminates
even on an already-cyclic graph. -/
def would_create_circular_dependency (db : DB) (source target : Nat) :
    Bool :=
  source == target ||
    decide (source ∈ closureFrom (depsOfId db) (cycleFuel db) target)

/-- Reverse-dependency adjacency ("who depends on me"): successors of
`x` are the ids of the rows that list `x` as a dependency. -/
def revAdj (db : DB) (x : Nat) : List Nat :=
  (db.filter (fun f => x ∈ depsOf f)).map Feature.id

/-- Whether some row of the table has id `i`. -/
def isFeatureId (db : DB) (i : Nat) : Bool := (findFeature db i).isSome

/-- Modelled from the spec:
`api.dependency_resolver.compute_scheduling_scores(features)` is missing
from the available sources.  Per spec §4.3 it builds the
reverse-dependency adjacency and scores each feature by the size of its
reachable set in the reverse graph, using a traversal with a visited set
that terminates on cyclic input; ids that are not features get no entry,
and the caller reads the map with default `0`. -/
def compute_scheduling_scores (db : DB) (i : Nat) : Nat :=
  if isFeatureId db i then
    (closureFrom (revAdj db) (cycleFuel db) i).card
  else 0

/-! ## Sorting (Python `sorted` / `list.sort`, a stable sort) -/
/-- Insert `a` in front of the first element `b` with `le a b`. -/
def insertSorted {α : Type} (le : α → α → Bool) (a : α) : List α → List α
  | [] => [a]
  | b :: l => if le a b then a :: b :: l else b :: insertSorted le a l

/-- Stable insertion sort, embedding the stable Python sorts. -/
def pySortBy {α : Type} (le : α → α → Bool) : List α → List α
  | [] => []
  | a :: l => insertSorted le a (pySortBy le l)

/-- Python `sorted` on a list of ids. -/
def pySorted (l : List Nat) : List Nat := pySortBy (fun a b => a ≤ b) l

/-! ## The MCP tool operations (`src/mcp_server/feature_mcp.py`)

Each tool takes the current table, returns its JSON result and the table
after the call.  `maxDeps` stands for the constant
`MAX_DEPENDENCIES_PER_FEATURE` of `api/dependency_resolver.py`, whose
value is not among the available sources; the operations take it as a
parameter. -/
/-- Success payload of `feature_mark_passing`. -/
structure MarkPassingOk where
  feature_id : Nat
  name : String
  deriving DecidableEq, Repr

/-- `feature_mark_passing` (feature_mcp.py lines 231-271): guarded
`UPDATE features SET passes = 1, in_progress = 0 WHERE id = :id AND
passes = 0`, then a re-read to diagnose a zero-row update. -/
def feature_mark_passing (db : DB) (feature_id : Nat) :
    MCPResult MarkPassingOk × DB :=
  let r := updateWhere db (fun f => f.id == feature_id && !f.passes)
    (fun f => { f with passes := true, in_progress := false })
  if r.2 == 0 then
    match findFeature r.1 feature_id with
    | none => (.error s!"Feature with ID {feature_id} not found", r.1)
    | some f =>
      if f.passes then
        (.error s!"Feature with ID {feature_id} is already passing", r.1)
      else
        (.error "Failed to mark feature passing for unknown reason", r.1)
  else
    match findFeature r.1 feature_id with
    | some f => (.ok { feature_id := feature_id, name := f.name }, r.1)
    | none => (.error "Failed to mark feature passing: missing row", r.1)

/-- Success payload of `feature_skip`. -/
structure SkipOk where
  id : Nat
  name : String
  old_priority : Int
  new_priority : Int
  deriving DecidableEq, Repr

/-- `feature_skip` (feature_mcp.py lines 326-384): rejects a missing or
already-passing feature, else `UPDATE features SET priority = (SELECT
COALESCE(MAX(priority), 0) + 1 FROM features), in_progress = 0 WHERE
id = :id`, then re-reads the row for the new priority. -/
def feature_skip (db : DB) (feature_id : Nat) : MCPResult SkipOk × DB :=
  match findFeature db feature_id with
  | none => (.error s!"Feature with ID {feature_id} not found", db)
  | some feature =>
    if feature.passes then
      (.error "Cannot skip a feature that is already passing", db)
    else
      let newPr := maxPriority db + 1
      let db' := (updateWhere db (fun f => f.id == feature_id)
        (fun f => { f with priority := newPr, in_progress := false })).1
      match findFeature db' feature_id with
      | some f2 =>
        (.ok { id := feature_id, name := feature.name,
               old_priority := feature.priority,
               new_priority := f2.priority }, db')
      | none => (.error "Failed to skip feature: missing row", db')

/-- Success payload of `feature_claim_and_get`: the row as returned by
`to_dict()` plus the `already_claimed` flag. -/
structure ClaimOk where
  feature : Feature
  already_claimed : Bool
  deriving DecidableEq, Repr

/-- `feature_claim_and_get` (feature_mcp.py lines 434-483): rejects a
missing or already-passing feature, then attempts the atomic claim
`UPDATE features SET in_progress = 1 WHERE id = :id AND passes = 0 AND
in_progress = 0`; a zero-row update is reported as success with
`already_claimed = true` provided the row is indeed in progress. -/
def feature_claim_and_get (db : DB) (feature_id : Nat) :
    MCPResult ClaimOk × DB :=
  match findFeature db feature_id with
  | none => (.error s!"Feature with ID {feature_id} not found", db)
  | some feature =>
    if feature.passes then
      (.error s!"Feature with ID {feature_id} is already passing", db)
    else
      let r := updateWhere db
        (fun f => f.id == feature_id && !f.passes && !f.in_progress)
        (fun f => { f with in_progress := true })
      if r.2 == 0 then
        match findFeature r.1 feature_id with
        | some f2 =>
          if !f2.in_progress then
            (.error s!"Failed to claim feature {feature_id} for unknown reason",
              r.1)
          else (.ok { feature := f2, already_claimed := true }, r.1)
        | none => (.error "Failed to claim feature: missing row", r.1)
      else
        match findFeature r.1 feature_id with
        | some f2 => (.ok { feature := f2, already_claimed := false }, r.1)
        | none => (.error "Failed to claim feature: missing row", r.1)

/-- Write the `dependencies` column of the row with id `i` (`id` is the
primary key, so at most one row is affected). -/
def setRowDeps (db : DB) (i : Nat) (d : Option (List Nat)) : DB :=
  db.map (fun r => if r.id == i then { r with dependencies := d } else r)

/-- Success payload of the dependency-mutation tools. -/
structure DepsOk where
  feature_id : Nat
  dependencies : List Nat
  deriving DecidableEq, Repr

/-- `feature_add_dependency` (feature_mcp.py lines 684-742): validates
self-reference, existence of both rows, the fan-in limit, duplicate
edges, then cycle-safety against a snapshot of the whole table, and only
then writes the sorted enlarged dependency list. -/
def feature_add_dependency (maxDeps : Nat) (db : DB)
    (feature_id dependency_id : Nat) : MCPResult DepsOk × DB :=
  if feature_id == dependency_id then
    (.error "A feature cannot depend on itself", db)
  else
    match findFeature db feature_id with
    | none => (.error s!"Feature {feature_id} not found", db)
    | some feature =>
      match findFeature db dependency_id with
      | none => (.error s!"Dependency feature {dependency_id} not found", db)
      | some _ =>
        let current_deps := depsOf feature
        if maxDeps ≤ current_deps.length then
          (.error s!"Maximum {maxDeps} dependencies allowed per feature", db)
        else if dependency_id ∈ current_deps then
          (.error "Dependency already exists", db)
        else if would_create_circular_dependency db feature_id dependency_id
        then
          (.error "Cannot add: would create circular dependency", db)
        else
          let new_deps := pySorted (current_deps ++ [dependency_id])
          (.ok { feature_id := feature_id, dependencies := new_deps },
           setRowDeps db feature_id (some new_deps))

/-- The first entry of `dependency_ids` whose addition the cycle detector
flags on the candidate graph (the loop of feature_mcp.py lines 969-971). -/
def firstCircular (test : DB) (feature_id : Nat) : List Nat → Option Nat
  | [] => none
  | d :: rest =>
    if would_create_circular_dependency test feature_id d then some d
    else firstCircular test feature_id rest

/-- `feature_set_dependencies` (feature_mcp.py lines 919-984): validates
self-reference, the fan-in limit, duplicates, existence of the feature
and of every requested dependency, then cycle-safety of the candidate
graph in which the row already carries the new list, and only then
writes the sorted list (NULL when empty). -/
def feature_set_dependencies (maxDeps : Nat) (db : DB) (feature_id : Nat)
    (dependency_ids : List Nat) : MCPResult DepsOk × DB :=
  if feature_id ∈ dependency_ids then
    (.error "A feature cannot depend on itself", db)
  else if maxDeps < dependency_ids.length then
    (.error s!"Maximum {maxDeps} dependencies allowed", db)
  else if dependency_ids.dedup.length ≠ dependency_ids.length then
    (.error "Duplicate dependencies not allowed", db)
  else
    match findFeature db feature_id with
    | none => (.error s!"Feature {feature_id} not found", db)
    | some _ =>
      let missing := dependency_ids.filter (fun d => !isFeatureId db d)
      if !missing.isEmpty then
        (.error s!"Dependencies not found: {missing}", db)
      else
        let test := setRowDeps db feature_id (some dependency_ids)
        match firstCircular test feature_id dependency_ids with
        | some d =>
          (.error
            s!"Cannot add dependency {d}: would create circular dependency",
            db)
        | none =>
          let sorted_deps :=
            if dependency_ids.isEmpty then none
            else some (pySorted dependency_ids)
          (.ok { feature_id := feature_id,
                 dependencies := pySorted dependency_ids },
           setRowDeps db feature_id sorted_deps)

/-! ### Bulk creation -/
/-- A `depends_on_indices` entry of a bulk spec: JSON may hold a
non-integer where the code expects an `int`
(`not isinstance(idx, int)`). -/
inductive BulkIdx where
  | int (i : Int)
  | notInt
  deriving DecidableEq, Repr

/-- One entry of the `features` argument of `feature_create_bulk`: a
JSON object whose required fields may be absent, plus the optional
`depends_on_indices` array (absent is read as `[]` by
`feature_data.get("depends_on_indices", [])`). -/
structure BulkSpec where
  category : Option String
  name : Option String
  description : Option String
  steps : Option (List String)
  depends_on_indices : List BulkIdx
  deriving DecidableEq, Repr

/-- `all(key in feature_data for key in [...])`. -/
def BulkSpec.hasRequiredFields (s : BulkSpec) : Bool :=
  s.category.isSome && s.name.isSome && s.description.isSome &&
    s.steps.isSome

/-- The per-element index checks of the validation loop (feature_mcp.py
lines 582-590), in list order: a non-integer or negative entry, then a
forward (or self) reference `idx >= i`. -/
def firstIdxError (i : Nat) : List BulkIdx → Option String
  | [] => none
  | .notInt :: _ =>
    some s!"Feature at index {i} has an invalid dependency index"
  | .int v :: rest =>
    if v < 0 then
      some s!"Feature at index {i} has invalid dependency index: {v}"
    else if (i : Int) ≤ v then
      some
        s!"Feature at index {i} cannot depend on feature at index {v} (forward reference not allowed)"
    else firstIdxError i rest

/-- The message of the first failing validation of the spec at batch
position `i` (feature_mcp.py lines 561-590), `none` when the spec is
valid: required fields, then (for a non-empty index list) the fan-in
limit, duplicates, and the per-element checks. -/
def specErrorMsg (maxDeps : Nat) (i : Nat) (s : BulkSpec) : Option String :=
  if !s.hasRequiredFields then
    some
      s!"Feature at index {i} missing required fields (category, name, description, steps)"
  else if s.depends_on_indices.isEmpty then none
  else if maxDeps < s.depends_on_indices.length then
    let n := s.depends_on_indices.length
    some s!"Feature at index {i} has {n} dependencies, max is {maxDeps}"
  else if s.depends_on_indices.dedup.length ≠ s.depends_on_indices.length
  then
    some s!"Feature at index {i} has duplicate dependencies"
  else firstIdxError i s.depends_on_indices

/-- The first spec of the batch (from position `i` on) that fails
validation, with its error message. -/
def firstSpecErrorFrom (maxDeps : Nat) :
    Nat → List BulkSpec → Option (Nat × String)
  | _, [] => none
  | i, s :: rest =>
    match specErrorMsg maxDeps i s with
    | some m => some (i, m)
    | none => firstSpecErrorFrom maxDeps (i + 1) rest

/-- The next autoincrement id the store assigns at flush (SQLite rowid:
one more than the largest existing id). -/
def nextId (db : DB) : Nat := (db.map Feature.id).foldr max 0 + 1

/-- The id a validated dependency index resolves to: the index-th row
inserted by this batch (`created_features[idx].id`). -/
def resolveIdx (db : DB) : BulkIdx → Nat
  | .int v => nextId db + v.toNat
  | .notInt => 0

/-- The row created for the spec at batch position `i`: sequential
priority, fresh id, `passes = false`, `in_progress = false`, and the
index-based dependencies resolved to the ids of the earlier rows of the
same batch (left NULL when the spec declares none). -/
def bulkRow (db : DB) (i : Nat) (s : BulkSpec) : Feature :=
  { id := nextId db + i
    priority := maxPriority db + 1 + i
    category := s.category.getD ""
    name := s.name.getD ""
    description := s.description.getD ""
    steps := s.steps.getD []
    passes := false
    in_progress := false
    dependencies :=
      if s.depends_on_indices.isEmpty then none
      else some (pySorted (s.depends_on_indices.map (resolveIdx db))) }

/-- Success payload of `feature_create_bulk`. -/
structure BulkOk where
  created : Nat
  with_dependencies : Nat
  deriving DecidableEq, Repr

/-- `feature_create_bulk` (feature_mcp.py lines 526-626): inside one
transaction, validate every spec (first pass), insert all rows with
sequential priorities starting at the current maximum plus one (second
pass), then resolve index-based dependencies to the freshly assigned ids
(third pass); any validation failure aborts before any row is written. -/
def feature_create_bulk (maxDeps : Nat) (db : DB) (specs : List BulkSpec) :
    MCPResult BulkOk × DB :=
  match firstSpecErrorFrom maxDeps 0 specs with
  | some im => (.error im.2, db)
  | none =>
    let rows := specs.mapIdx (fun i s => bulkRow db i s)
    (.ok { created := rows.length,
           with_dependencies :=
             specs.countP (fun s => !s.depends_on_indices.isEmpty) },
     db ++ rows)

/-! ### Readiness and blockage -/
/-- `passing_ids = {f.id for f in all_features if f.passes}`. -/
def passingIds (db : DB) : List Nat :=
  (db.filter (fun f => f.passes)).map Feature.id

/-- The `ready` list of `feature_get_ready` (feature_mcp.py lines
804-811) before sorting: not passing, not in progress, and every
dependency id among the passing ids. -/
def readyFeatures (db : DB) : List Feature :=
  db.filter (fun f => !f.passes && !f.in_progress &&
    (depsOf f).all (fun d => d ∈ passingIds db))

/-- The sort comparator of `feature_get_ready`: ascending on the key
`(-score, priority, id)` — higher scheduling score first, then lower
priority, then lower id. -/
def readyLE (db : DB) (a b : Feature) : Bool :=
  let sa := compute_scheduling_scores db a.id
  let sb := compute_scheduling_scores db b.id
  if sa ≠ sb then sb < sa
  else if a.priority ≠ b.priority then a.priority < b.priority
  else a.id ≤ b.id

/-- Result of `feature_get_ready`. -/
structure ReadyResult where
  features : List Feature
  count : Nat
  total_ready : Nat
  deriving DecidableEq, Repr

/-- `feature_get_ready` (feature_mcp.py lines 785-823). -/
def feature_get_ready (db : DB) (limit : Nat) : ReadyResult :=
  let ready := pySortBy (readyLE db) (readyFeatures db)
  { features := ready.take limit
    count := (ready.take limit).length
    total_ready := ready.length }

/-- The not-yet-passing dependency ids of a row
(`[d for d in deps if d not in passing_ids]`). -/
def blockingOf (db : DB) (f : Feature) : List Nat :=
  (depsOf f).filter (fun d => !(d ∈ passingIds db))

/-- An entry of the `feature_get_blocked` result: the row plus its
`blocked_by` list. -/
structure BlockedEntry where
  feature : Feature
  blocked_by : List Nat
  deriving DecidableEq, Repr

/-- The `blocked` list of `feature_get_blocked` (feature_mcp.py lines
846-856): not passing and with at least one not-yet-passing dependency,
annotated with those dependencies. -/
def blockedEntries (db : DB) : List BlockedEntry :=
  db.filterMap (fun f =>
    if f.passes then none
    else if (blockingOf db f).isEmpty then none
    else some { feature := f, blocked_by := blockingOf db f })

/-- Result of `feature_get_blocked`. -/
structure BlockedResult where
  features : List BlockedEntry
  count : Nat
  total_blocked : Nat
  deriving DecidableEq, Repr

/-- `feature_get_blocked` (feature_mcp.py lines 827-864). -/
def feature_get_blocked (db : DB) (limit : Nat) : BlockedResult :=
  let blocked := blockedEntries db
  { features := blocked.take limit
    count := (blocked.take limit).length
    total_blocked := blocked.length }

/-- Executable acyclicity check for the stored graph, used to discharge
`Acyclic` hypotheses on concrete tables. -/
def hasCycleB (db : DB) : Bool :=
  db.any (fun f => (depsOf f).any (fun b =>
    decide (f.id ∈ closureFrom (depsOfId db) (cycleFuel db) b)))

/-- A concrete row builder for instantiating theorems on small tables. -/
def mkFeature (i : Nat) (pr : Int) (ps ip : Bool) (d : Option (List Nat)) :
    Feature :=
  { id := i, priority := pr, category := "core", name := "feature",
    description := "demo", steps := ["step"], passes := ps,
    in_progress := ip, dependencies := d }

/-- A valid bulk spec with no dependencies. -/
def specOk : BulkSpec :=
  { category := some "core", name := some "alpha",
    description := some "demo", steps := some ["step"],
    depends_on_indices := [] }

/-- A valid bulk spec depending on batch position 0. -/
def specDep0 : BulkSpec :=
  { category := some "core", name := some "beta",
    description := some "demo", steps := some ["step"],
    depends_on_indices := [BulkIdx.int 0] }

/-- A bulk spec whose index 1 is a forward reference at position 1. -/
def specFwd : BulkSpec :=
  { category := some "core", name := some "gamma",
    description := some "demo", steps := some ["step"],
    depends_on_indices := [BulkIdx.int 1] }

/-- A two-row acyclic table: feature 2 depends on feature 1. -/
def dbW : DB :=
  [mkFeature 1 1 false false none, mkFeature 2 2 false false (some [1])]

/-- `dbW` extended with an independent feature 3. -/
def dbW2 : DB := dbW ++ [mkFeature 3 3 false false none]

/-! ### Correctness of the bounded traversal -/
theorem subset_stepSet (adj : Nat → List Nat) (s : Finset Nat) :
    s ⊆ stepSet adj s :=
  Finset.subset_union_left

theorem iterStep_succ_outer (adj : Nat → List Nat) :
    ∀ (n : Nat) (s : Finset Nat),
      iterStep adj (n + 1) s = stepSet adj (iterStep adj n s)
  | 0, _ => rfl
  | n + 1, s => iterStep_succ_outer adj n (stepSet adj s)

theorem subset_iterStep (adj : Nat → List Nat) :
    ∀ (n : Nat) (s : Finset Nat), s ⊆ iterStep adj n s
  | 0, _ => Finset.Subset.refl _
  | n + 1, s =>
    le_trans (subset_stepSet adj s) (subset_iterStep adj n (stepSet adj s))

theorem iterStep_add (adj : Nat → List Nat) (m : Nat) :
    ∀ (n : Nat) (s : Finset Nat),
      iterStep adj (m + n) s = iterStep adj m (iterStep adj n s)
  | 0, _ => rfl
  | n + 1, s => by
    have h : m + (n + 1) = (m + n) + 1 := rfl
    rw [h]
    exact iterStep_add adj m n (stepSet adj s)

theorem iterStep_eq_of_fix {adj : Nat → List Nat} {s : Finset Nat}
    (hfix : stepSet adj s = s) : ∀ n, iterStep adj n s = s
  | 0 => rfl
  | n + 1 => by
    show iterStep adj n (stepSet adj s) = s
    rw [hfix]
    exact iterStep_eq_of_fix hfix n

theorem rtg_of_mem_iterStep {adj : Nat → List Nat} :
    ∀ {n : Nat} {s : Finset Nat} {x : Nat}, x ∈ iterStep adj n s →
      ∃ a ∈ s, Relation.ReflTransGen (AdjRel adj) a x := by
  intro n
  induction n with
  | zero => intro s x hx; exact ⟨x, hx, Relation.ReflTransGen.refl⟩
  | succ n ih =>
    intro s x hx
    obtain ⟨a, ha, hrtg⟩ := ih hx
    rcases Finset.mem_union.mp ha with ha | ha
    · exact ⟨a, ha, hrtg⟩
    · obtain ⟨b, hb, hab⟩ := Finset.mem_biUnion.mp ha
      exact ⟨b, hb, Relation.ReflTransGen.head (List.mem_toFinset.mp hab) hrtg⟩

theorem mem_of_closed {adj : Nat → List Nat} {s : Finset Nat}
    (hc : ∀ a ∈ s, ∀ b ∈ adj a, b ∈ s) {a x : Nat}
    (h : Relation.ReflTransGen (AdjRel adj) a x) (ha : a ∈ s) : x ∈ s := by
  induction h with
  | refl => exact ha
  | tail _ hbc ih => exact hc _ ih _ hbc

theorem card_iterStep_of_no_fix {adj : Nat → List Nat} {s : Finset Nat} :
    ∀ n, (∀ k < n, stepSet adj (iterStep adj k s) ≠ iterStep adj k s) →
      s.card + n ≤ (iterStep adj n s).card := by
  intro n
  induction n with
  | zero => intro _; exact Nat.le_refl _
  | succ n ih =>
    intro h
    have hlt : iterStep adj n s ⊂ stepSet adj (iterStep adj n s) :=
      (Finset.ssubset_iff_subset_ne).mpr
        ⟨subset_stepSet adj _, fun he => h n (Nat.lt_succ_self n) he.symm⟩
    have hcard := Finset.card_lt_card hlt
    have hprev := ih (fun k hk => h k (Nat.lt_succ_of_lt hk))
    rw [iterStep_succ_outer]
    omega

theorem iterStep_subset_universe {adj : Nat → List Nat} {U : Finset Nat}
    (hU : ∀ a b, b ∈ adj a → b ∈ U) :
    ∀ (n : Nat) {s : Finset Nat}, s ⊆ U → iterStep adj n s ⊆ U := by
  intro n
  induction n with
  | zero => intro s hs; exact hs
  | succ n ih =>
    intro s hs
    apply ih
    apply Finset.union_subset hs
    intro x hx
    obtain ⟨a, _, hxa⟩ := Finset.mem_biUnion.mp hx
    exact hU a x (List.mem_toFinset.mp hxa)

/-- Correctness of the bounded BFS: with enough fuel for the node
universe, membership in the computed closure is exactly reflexive
transitive reachability along the adjacency. -/
theorem mem_closureFrom_iff {adj : Nat → List Nat} {U : Finset Nat}
    {fuel start x : Nat} (hU : ∀ a b, b ∈ adj a → b ∈ U)
    (hstart : start ∈ U) (hfuel : U.card ≤ fuel) :
    x ∈ closureFrom adj fuel start ↔
      Relation.ReflTransGen (AdjRel adj) start x := by
  constructor
  · intro hx
    obtain ⟨a, ha, hrtg⟩ := rtg_of_mem_iterStep hx
    rwa [Finset.mem_singleton.mp ha] at hrtg
  · intro hrtg
    have hsub : ({start} : Finset Nat) ⊆ U := by
      intro y hy
      rwa [Finset.mem_singleton.mp hy]
    have hfix : ∃ k < fuel,
        stepSet adj (iterStep adj k {start}) = iterStep adj k {start} := by
      by_contra hno
      push_neg at hno
      have hgrow := card_iterStep_of_no_fix (s := {start}) fuel hno
      have hsubU := iterStep_subset_universe hU fuel hsub
      have hle : (iterStep adj fuel {start}).card ≤ U.card :=
        Finset.card_le_card hsubU
      simp [Finset.card_singleton] at hgrow
      omega
    obtain ⟨k, hk, hfixk⟩ := hfix
    have hstable : iterStep adj fuel {start} = iterStep adj k {start} := by
      have hsplit : fuel = (fuel - k) + k := by omega
      rw [hsplit, iterStep_add, iterStep_eq_of_fix hfixk]
    have hclosed : ∀ a ∈ iterStep adj k ({start} : Finset Nat),
        ∀ b ∈ adj a, b ∈ iterStep adj k ({start} : Finset Nat) := by
      intro a ha b hb
      rw [← hfixk]
      apply Finset.mem_union_right
      exact Finset.mem_biUnion.mpr ⟨a, ha, List.mem_toFinset.mpr hb⟩
    have hstartmem : start ∈ iterStep adj k ({start} : Finset Nat) :=
      subset_iterStep adj k {start} (Finset.mem_singleton_self start)
    show x ∈ iterStep adj fuel {start}
    rw [hstable]
    exact mem_of_closed hclosed hrtg hstartmem

theorem insertSorted_perm {α : Type} (le : α → α → Bool) (a : α) :
    ∀ l : List α, (insertSorted le a l).Perm (a :: l)
  | [] => List.Perm.refl _
  | b :: l => by
    show (if le a b then a :: b :: l else b :: insertSorted le a l).Perm _
    split
    · exact List.Perm.refl _
    · exact ((insertSorted_perm le a l).cons b).trans (List.Perm.swap a b l)

theorem pySortBy_perm {α : Type} (le : α → α → Bool) :
    ∀ l : List α, (pySortBy le l).Perm l
  | [] => List.Perm.refl _
  | a :: l =>
    (insertSorted_perm le a (pySortBy le l)).trans
      ((pySortBy_perm le l).cons a)

theorem mem_pySortBy {α : Type} {le : α → α → Bool} {a : α} {l : List α} :
    a ∈ pySortBy le l ↔ a ∈ l :=
  (pySortBy_perm le l).mem_iff

theorem mem_pySorted {a : Nat} {l : List Nat} : a ∈ pySorted l ↔ a ∈ l :=
  mem_pySortBy

/-! ## Helper lemmas about the table embedding -/
theorem findFeature_mem {db : DB} {i : Nat} {f : Feature}
    (h : findFeature db i = some f) : f ∈ db ∧ f.id = i :=
  ⟨List.mem_of_find?_eq_some h, by simpa using List.find?_some h⟩

theorem findFeature_of_mem {db : DB} (hnd : DBWellFormed db) {f : Feature}
    (hf : f ∈ db) : findFeature db f.id = some f := by
  induction db with
  | nil => cases hf
  | cons g rest ih =>
    rcases List.mem_cons.mp hf with rfl | hf2
    · simp [findFeature, List.find?]
    · have hnd2 : DBWellFormed rest := (List.nodup_cons.mp hnd).2
      have hne : (g.id == f.id) = false := by
        refine beq_eq_false_iff_ne.mpr ?_
        intro he
        exact (List.nodup_cons.mp hnd).1
          (he ▸ List.mem_map.mpr ⟨f, hf2, rfl⟩)
      simp only [findFeature, List.find?, hne]
      exact ih hnd2 hf2

theorem findFeature_map {db : DB} {h : Feature → Feature}
    (hid : ∀ f, (h f).id = f.id) (x : Nat) :
    findFeature (db.map h) x = (findFeature db x).map h := by
  induction db with
  | nil => rfl
  | cons g rest ih =>
    simp only [List.map_cons, findFeature, List.find?, hid g]
    cases hgx : (g.id == x) with
    | true => rfl
    | false => exact ih

theorem le_foldl_max (l : List Int) :
    ∀ p q : Int, p ≤ q → p ≤ l.foldl max q := by
  induction l with
  | nil => intro p q h; exact h
  | cons r rest ih =>
    intro p q h
    exact ih p (max q r) (le_trans h (le_max_left q r))

theorem mem_le_foldl_max (l : List Int) :
    ∀ (q a : Int), a ∈ l → a ≤ l.foldl max q := by
  induction l with
  | nil => intro q a h; cases h
  | cons r rest ih =>
    intro q a h
    rcases List.mem_cons.mp h with rfl | h2
    · exact le_foldl_max rest a (max q a) (le_max_right q a)
    · exact ih (max q r) a h2

theorem le_maxPriority {db : DB} {f : Feature} (hf : f ∈ db) :
    f.priority ≤ maxPriority db := by
  have hmem : f.priority ∈ db.map Feature.priority :=
    List.mem_map.mpr ⟨f, hf, rfl⟩
  unfold maxPriority
  cases hdb : db.map Feature.priority with
  | nil => rw [hdb] at hmem; cases hmem
  | cons p ps =>
    rw [hdb] at hmem
    rcases List.mem_cons.mp hmem with rfl | h2
    · exact le_foldl_max ps f.priority f.priority (le_refl _)
    · exact mem_le_foldl_max ps p f.priority h2

/-! ## The stored graph and the cycle detector -/
theorem depsOfId_mem_allNodes {db : DB} {a b : Nat}
    (hb : b ∈ depsOfId db a) : b ∈ allNodes db := by
  unfold depsOfId at hb
  cases hfind : findFeature db a with
  | none => rw [hfind] at hb; cases hb
  | some f =>
    rw [hfind] at hb
    exact List.mem_flatMap.mpr
      ⟨f, (findFeature_mem hfind).1, List.mem_cons_of_mem _ hb⟩

/-- The bounded BFS of the cycle detector computes exactly reflexive
transitive reachability along the stored dependency edges. -/
theorem mem_cycleClosure_iff {db : DB} {start x : Nat} :
    x ∈ closureFrom (depsOfId db) (cycleFuel db) start ↔
      Relation.ReflTransGen (Edge db) start x := by
  have hrel : AdjRel (depsOfId db) = Edge db := rfl
  rw [← hrel]
  apply mem_closureFrom_iff
    (U := insert start (allNodes db).toFinset)
  · intro a b hb
    exact Finset.mem_insert_of_mem
      (List.mem_toFinset.mpr (depsOfId_mem_allNodes hb))
  · exact Finset.mem_insert_self _ _
  · calc (insert start (allNodes db).toFinset).card
        ≤ (allNodes db).toFinset.card + 1 := Finset.card_insert_le _ _
      _ ≤ (allNodes db).length + 1 :=
          Nat.add_le_add_right (List.toFinset_card_le _) 1
      _ = cycleFuel db := rfl

theorem would_create_circular_dependency_iff {db : DB} {s t : Nat} :
    would_create_circular_dependency db s t = true ↔
      s = t ∨ Relation.ReflTransGen (Edge db) t s := by
  unfold would_create_circular_dependency
  rw [Bool.or_eq_true, beq_iff_eq, decide_eq_true_eq, mem_cycleClosure_iff]

theorem would_create_circular_dependency_false_iff {db : DB} {s t : Nat} :
    would_create_circular_dependency db s t = false ↔
      s ≠ t ∧ ¬ Relation.ReflTransGen (Edge db) t s := by
  rw [← Bool.not_eq_true, would_create_circular_dependency_iff]
  tauto

theorem hasCycleB_eq_true_iff {db : DB} (hnd : DBWellFormed db) :
    hasCycleB db = true ↔ HasCycle db := by
  unfold hasCycleB
  rw [List.any_eq_true]
  constructor
  · rintro ⟨f, hf, hb⟩
    rw [List.any_eq_true] at hb
    obtain ⟨b, hbdep, hmem⟩ := hb
    rw [decide_eq_true_eq, mem_cycleClosure_iff] at hmem
    have hedge : Edge db f.id b := by
      unfold Edge depsOfId
      rw [findFeature_of_mem hnd hf]
      exact hbdep
    exact ⟨f.id, Relation.TransGen.head' hedge hmem⟩
  · rintro ⟨a, hcyc⟩
    obtain ⟨b, hab, hba⟩ := Relation.TransGen.head'_iff.mp hcyc
    unfold Edge depsOfId at hab
    cases hfind : findFeature db a with
    | none => rw [hfind] at hab; cases hab
    | some f =>
      rw [hfind] at hab
      obtain ⟨hfmem, hfid⟩ := findFeature_mem hfind
      refine ⟨f, hfmem, ?_⟩
      rw [List.any_eq_true]
      refine ⟨b, hab, ?_⟩
      rw [decide_eq_true_eq, mem_cycleClosure_iff, hfid]
      exact hba

theorem hasCycleB_eq_false_iff {db : DB} (hnd : DBWellFormed db) :
    hasCycleB db = false ↔ Acyclic db := by
  rw [← Bool.not_eq_true, hasCycleB_eq_true_iff hnd]
  exact Iff.rfl

/-! ## Editing one row of the graph -/
theorem findFeature_setRowDeps {db : DB} {i x : Nat}
    {d : Option (List Nat)} :
    findFeature (setRowDeps db i d) x =
      (findFeature db x).map
        (fun r => if r.id == i then { r with dependencies := d } else r) := by
  unfold setRowDeps
  apply findFeature_map
  intro f
  by_cases h : f.id == i <;> simp [h]

theorem depsOfId_setRowDeps_ne {db : DB} {i x : Nat}
    {d : Option (List Nat)} (hx : x ≠ i) :
    depsOfId (setRowDeps db i d) x = depsOfId db x := by
  unfold depsOfId
  rw [findFeature_setRowDeps]
  cases hfind : findFeature db x with
  | none => rfl
  | some f =>
    have hfid : f.id = x := (findFeature_mem hfind).2
    have hne2 : f.id ≠ i := by rw [hfid]; exact hx
    simp only [Option.map, Option.elim]
    rw [show (f.id == i) = false from beq_eq_false_iff_ne.mpr hne2]
    simp

theorem depsOfId_setRowDeps_self {db : DB} {i : Nat} {f : Feature}
    {d : Option (List Nat)} (hfind : findFeature db i = some f) :
    depsOfId (setRowDeps db i d) i = d.getD [] := by
  unfold depsOfId
  rw [findFeature_setRowDeps, hfind]
  have heq : f.id = i := (findFeature_mem hfind).2
  simp only [Option.map, Option.elim]
  rw [show (f.id == i) = true from beq_iff_eq.mpr heq]
  simp [depsOf]

theorem Edge_ext {db1 db2 : DB}
    (h : ∀ x y, Edge db1 x y ↔ Edge db2 x y) : Edge db1 = Edge db2 := by
  funext x y
  exact propext (h x y)

/-! ## Acyclicity under a single-row dependency edit

`E` is the edge relation before the edit and `E2` after it; the edit
only changes the outgoing edges of the node `f`. -/
theorem rtg_through_changed {E E2 : Nat → Nat → Prop} {f : Nat}
    (hne : ∀ x y, x ≠ f → (E2 x y ↔ E x y)) {x y : Nat}
    (h : Relation.ReflTransGen E2 x y) :
    Relation.ReflTransGen E x y ∨
      (Relation.ReflTransGen E x f ∧ Relation.ReflTransGen E2 f y) := by
  induction h using Relation.ReflTransGen.head_induction_on with
  | refl => exact Or.inl Relation.ReflTransGen.refl
  | head hxc hcy ih =>
    rename_i x c
    by_cases hx : x = f
    · subst hx
      exact Or.inr ⟨Relation.ReflTransGen.refl,
        Relation.ReflTransGen.head hxc hcy⟩
    · have hE : E x c := (hne x c hx).mp hxc
      rcases ih with hEcy | ⟨hcf, hfy⟩
      · exact Or.inl (Relation.ReflTransGen.head hE hEcy)
      · exact Or.inr ⟨Relation.ReflTransGen.head hE hcf, hfy⟩

theorem rtg_to_f_back {E E2 : Nat → Nat → Prop} {f : Nat}
    (hne : ∀ x y, x ≠ f → (E2 x y ↔ E x y)) {x : Nat}
    (h : Relation.ReflTransGen E2 x f) : Relation.ReflTransGen E x f := by
  induction h using Relation.ReflTransGen.head_induction_on with
  | refl => exact Relation.ReflTransGen.refl
  | head hxc hcy ih =>
    rename_i x c
    by_cases hx : x = f
    · subst hx; exact Relation.ReflTransGen.refl
    · exact Relation.ReflTransGen.head ((hne x c hx).mp hxc) ih

theorem rtg_to_f_forward {E E2 : Nat → Nat → Prop} {f : Nat}
    (hne : ∀ x y, x ≠ f → (E2 x y ↔ E x y)) {x : Nat}
    (h : Relation.ReflTransGen E x f) : Relation.ReflTransGen E2 x f :=
  rtg_to_f_back (fun x y hx => (hne x y hx).symm) h

/-- If the old graph is acyclic and no new outgoing edge of `f` can walk
back to `f`, the edited graph is acyclic. -/
theorem acyclic_of_changed_row {E E2 : Nat → Nat → Prop} {f : Nat}
    (hne : ∀ x y, x ≠ f → (E2 x y ↔ E x y))
    (hacy : ∀ a, ¬ Relation.TransGen E a a)
    (hnew : ∀ b, E2 f b → ¬ Relation.ReflTransGen E2 b f) :
    ∀ a, ¬ Relation.TransGen E2 a a := by
  intro a hcyc
  obtain ⟨b, hab, hba⟩ := Relation.TransGen.head'_iff.mp hcyc
  by_cases ha : a = f
  · subst ha; exact hnew b hab hba
  · have hEab : E a b := (hne a b ha).mp hab
    rcases rtg_through_changed hne hba with hEba | ⟨hbf, hfa⟩
    · exact hacy a (Relation.TransGen.head' hEab hEba)
    · rcases Relation.ReflTransGen.cases_head hfa with hfa_eq | ⟨c, hfc, hca⟩
      · exact ha hfa_eq.symm
      · apply hnew c hfc
        have h1 : Relation.ReflTransGen E2 a b :=
          Relation.ReflTransGen.single ((hne a b ha).mpr hEab)
        have h2 : Relation.ReflTransGen E2 b f := rtg_to_f_forward hne hbf
        exact hca.trans (h1.trans h2)

/-- Adding the single edge `f → d` to an acyclic graph keeps it acyclic
when `d` cannot already reach `f` (and `f ≠ d`). -/
theorem acyclic_add_edge {E E2 : Nat → Nat → Prop} {f d : Nat}
    (hedge : ∀ x y, E2 x y ↔ (E x y ∨ (x = f ∧ y = d)))
    (hacy : ∀ a, ¬ Relation.TransGen E a a)
    (hnr : ¬ Relation.ReflTransGen E d f) :
    ∀ a, ¬ Relation.TransGen E2 a a := by
  have hne : ∀ x y, x ≠ f → (E2 x y ↔ E x y) := by
    intro x y hx
    rw [hedge]
    constructor
    · rintro (h | ⟨rfl, _⟩)
      · exact h
      · exact absurd rfl hx
    · exact Or.inl
  apply acyclic_of_changed_row hne hacy
  intro b hb hbf
  have hEbf : Relation.ReflTransGen E b f := rtg_to_f_back hne hbf
  rcases (hedge f b).mp hb with hEfb | ⟨_, rfl⟩
  · exact hacy f (Relation.TransGen.head' hEfb hEbf)
  · exact hnr hEbf

theorem firstCircular_eq_none_iff {test : DB} {f : Nat} :
    ∀ {l : List Nat}, firstCircular test f l = none ↔
      ∀ d ∈ l, would_create_circular_dependency test f d = false := by
  intro l
  induction l with
  | nil => simp [firstCircular]
  | cons d rest ih =>
    by_cases h : would_create_circular_dependency test f d = true
    · simp [firstCircular, h]
    · rw [Bool.not_eq_true] at h
      simp [firstCircular, h, ih]

theorem mem_id_unique {db : DB} (hnd : DBWellFormed db) {r s : Feature}
    (hr : r ∈ db) (hs : s ∈ db) (hid : r.id = s.id) : r = s := by
  induction db with
  | nil => cases hr
  | cons g rest ih =>
    obtain ⟨hg, hrest⟩ := List.nodup_cons.mp hnd
    rcases List.mem_cons.mp hr with rfl | hr2
    · rcases List.mem_cons.mp hs with rfl | hs2
      · rfl
      · exact absurd (hid ▸ List.mem_map.mpr ⟨s, hs2, rfl⟩) hg
    · rcases List.mem_cons.mp hs with rfl | hs2
      · exact absurd (hid ▸ List.mem_map.mpr ⟨r, hr2, rfl⟩) hg
      · exact ih hrest hr2 hs2

theorem wellFormed_map {db : DB} (hnd : DBWellFormed db)
    {h : Feature → Feature} (hid : ∀ f, (h f).id = f.id) :
    DBWellFormed (db.map h) := by
  unfold DBWellFormed
  rw [List.map_map]
  have : (Feature.id ∘ h) = Feature.id := by
    funext f; exact hid f
  rw [this]
  exact hnd

theorem mem_passingIds {db : DB} {d : Nat} :
    d ∈ passingIds db ↔ ∃ g ∈ db, g.id = d ∧ g.passes = true := by
  unfold passingIds
  rw [List.mem_map]
  constructor
  · rintro ⟨g, hg, rfl⟩
    obtain ⟨hgdb, hgp⟩ := List.mem_filter.mp hg
    exact ⟨g, hgdb, rfl, hgp⟩
  · rintro ⟨g, hgdb, rfl, hgp⟩
    exact ⟨g, List.mem_filter.mpr ⟨hgdb, hgp⟩, rfl⟩

/-- Claim C10: `feature_skip` on an existing feature that is already passing
returns the error `Cannot skip a feature that is already passing` and
leaves the table — and so the priority, passes and in_progress fields of
every feature — unchanged. -/
theorem C10_skip_already_passing {db : DB} {i : Nat} {f : Feature}
    (hfind : findFeature db i = some f) (hpass : f.passes = true) :
    feature_skip db i =
      (.error "Cannot skip a feature that is already passing", db) := by
  unfold feature_skip
  rw [hfind]
  simp [hpass]

/-- Claim C10 witness: skipping the passing feature 1 of a concrete table. -/
theorem C10_skip_already_passing_witness :
    feature_skip [mkFeature 1 5 true false none] 1 =
      (.error "Cannot skip a feature that is already passing",
       [mkFeature 1 5 true false none]) :=
  C10_skip_already_passing (f := mkFeature 1 5 true false none)
    (by decide) (by decide)

/-- Claim C8: `add_dependency(x, x)` always returns the self-reference error,
and `set_dependencies(x, deps)` with `x ∈ deps` always returns the
self-reference error; in both cases the table is unchanged. -/
theorem C8_self_reference_rejected (maxDeps : Nat) (db : DB) (x : Nat)
    (ds : List Nat) (hx : x ∈ ds) :
    feature_add_dependency maxDeps db x x =
      (.error "A feature cannot depend on itself", db) ∧
    feature_set_dependencies maxDeps db x ds =
      (.error "A feature cannot depend on itself", db) := by
  constructor
  · unfold feature_add_dependency
    simp
  · unfold feature_set_dependencies
    simp [hx]

/-- Claim C8 witness: self-reference on a concrete table. -/
theorem C8_self_reference_rejected_witness :
    feature_add_dependency 50 [mkFeature 1 1 false false none] 1 1 =
      (.error "A feature cannot depend on itself",
       [mkFeature 1 1 false false none]) ∧
    feature_set_dependencies 50 [mkFeature 1 1 false false none] 1 [2, 1] =
      (.error "A feature cannot depend on itself",
       [mkFeature 1 1 false false none]) :=
  C8_self_reference_rejected 50 [mkFeature 1 1 false false none] 1 [2, 1]
    (by decide)

theorem updateWhere_no_match {db : DB} {p : Feature → Bool}
    {g : Feature → Feature} (h : ∀ r ∈ db, ¬ p r = true) :
    updateWhere db p g = (db, 0) := by
  unfold updateWhere
  have h1 : db.map (fun f => if p f then g f else f) = db := by
    rw [List.map_congr_left (g := fun f => f), List.map_id']
    intro a ha
    rw [if_neg (h a ha)]
  rw [h1, List.countP_eq_zero.mpr h]

/-- `feature_mark_passing` on an unknown id: the guarded update matches
no row and the re-read reports not-found. -/
theorem mark_passing_not_found {db : DB} {i : Nat}
    (hfind : findFeature db i = none) :
    feature_mark_passing db i =
      (.error s!"Feature with ID {i} not found", db) := by
  have hnone : ∀ r ∈ db, ¬ ((r.id == i && !r.passes) = true) := by
    intro r hr hcon
    have hc : r.id = i ∧ r.passes = false := by simpa using hcon
    exact (List.find?_eq_none.mp hfind) r hr (beq_iff_eq.mpr hc.1)
  unfold feature_mark_passing
  rw [updateWhere_no_match hnone]
  simp [hfind]

/-- `feature_mark_passing` on an already-passing row: the guard
`passes = 0` matches no row and the re-read reports already-passing. -/
theorem mark_passing_already {db : DB} {i : Nat} {f : Feature}
    (hnd : DBWellFormed db) (hfind : findFeature db i = some f)
    (hpass : f.passes = true) :
    feature_mark_passing db i =
      (.error s!"Feature with ID {i} is already passing", db) := by
  have hnone : ∀ r ∈ db, ¬ ((r.id == i && !r.passes) = true) := by
    intro r hr hcon
    have hc : r.id = i ∧ r.passes = false := by simpa using hcon
    have hrf : r = f := mem_id_unique hnd hr (findFeature_mem hfind).1
      (by rw [hc.1, (findFeature_mem hfind).2])
    rw [hrf, hpass] at hc
    exact (by simp at hc : False)
  unfold feature_mark_passing
  rw [updateWhere_no_match hnone]
  simp [hfind, hpass]

/-- `feature_mark_passing` on an existing not-yet-passing row: the
guarded update matches it and sets `passes`, clearing `in_progress`. -/
theorem mark_passing_success {db : DB} {i : Nat} {f : Feature}
    (hnd : DBWellFormed db) (hfind : findFeature db i = some f)
    (hpass : f.passes = false) :
    feature_mark_passing db i =
      (.ok { feature_id := i, name := f.name },
       db.map (fun r => if r.id == i then
         { r with passes := true, in_progress := false } else r)) := by
  obtain ⟨hmem, hfid⟩ := findFeature_mem hfind
  have hp : (f.id == i && !f.passes) = true := by simp [hfid, hpass]
  have hpos : 0 < db.countP (fun r => r.id == i && !r.passes) :=
    List.countP_pos_iff.mpr ⟨f, hmem, hp⟩
  have hz : (db.countP (fun r => r.id == i && !r.passes) == 0) = false := by
    rw [beq_eq_false_iff_ne]
    omega
  have hmapeq :
      db.map (fun r => if r.id == i && !r.passes then
        { r with passes := true, in_progress := false } else r) =
      db.map (fun r => if r.id == i then
        { r with passes := true, in_progress := false } else r) := by
    apply List.map_congr_left
    intro r hr
    by_cases hrid : (r.id == i) = true
    · have hrf : r = f := mem_id_unique hnd hr hmem
        (by rw [beq_iff_eq.mp hrid, hfid])
      subst hrf
      simp [hfid, hpass]
    · rw [Bool.not_eq_true] at hrid
      simp [hrid]
  have hfound : findFeature
      (db.map (fun r => if r.id == i then
        { r with passes := true, in_progress := false } else r)) i =
      some { f with passes := true, in_progress := false } := by
    rw [findFeature_map (fun r => by
      by_cases h : (r.id == i) = true <;> simp [h]), hfind]
    simp only [Option.map]
    rw [show (f.id == i) = true from beq_iff_eq.mpr hfid]
    simp
  unfold feature_mark_passing updateWhere
  simp only [hz, Bool.false_eq_true, if_false]
  rw [hmapeq, hfound]

/-- Claim C6: `feature_mark_passing` updates only under the guard
`passes = false`, setting `passes = true` and `in_progress = false`; an
existing already-passing feature yields the already-passing error with
no change; an unknown id yields the not-found error, the two zero-row
cases being told apart by re-reading the row. -/
theorem C6_mark_passing_guarded {db : DB} {i : Nat}
    (hnd : DBWellFormed db) :
    (∀ f, findFeature db i = some f → f.passes = false →
       feature_mark_passing db i =
         (.ok { feature_id := i, name := f.name },
          db.map (fun r => if r.id == i then
            { r with passes := true, in_progress := false } else r))) ∧
    (∀ f, findFeature db i = some f → f.passes = true →
       feature_mark_passing db i =
         (.error s!"Feature with ID {i} is already passing", db)) ∧
    (findFeature db i = none →
       feature_mark_passing db i =
         (.error s!"Feature with ID {i} not found", db)) :=
  ⟨fun _ hf hp => mark_passing_success hnd hf hp,
   fun _ hf hp => mark_passing_already hnd hf hp,
   fun hf => mark_passing_not_found hf⟩

/-- Claim C6 witness: the three outcomes on a concrete two-row table. -/
theorem C6_mark_passing_guarded_witness :
    feature_mark_passing
        [mkFeature 1 1 false true none, mkFeature 2 2 true false none] 1 =
      (.ok { feature_id := 1, name := "feature" },
       [mkFeature 1 1 true false none, mkFeature 2 2 true false none]) ∧
    feature_mark_passing
        [mkFeature 1 1 false true none, mkFeature 2 2 true false none] 2 =
      (.error "Feature with ID 2 is already passing",
       [mkFeature 1 1 false true none, mkFeature 2 2 true false none]) ∧
    feature_mark_passing
        [mkFeature 1 1 false true none, mkFeature 2 2 true false none] 3 =
      (.error "Feature with ID 3 not found",
       [mkFeature 1 1 false true none, mkFeature 2 2 true false none]) := by
  refine ⟨?_, ?_, ?_⟩
  · exact ((C6_mark_passing_guarded (i := 1) (by decide)).1
      (mkFeature 1 1 false true none) (by decide) (by decide)).trans
      (by decide)
  · exact ((C6_mark_passing_guarded (i := 2) (by decide)).2.1
      (mkFeature 2 2 true false none) (by decide) (by decide)).trans
      (by decide)
  · exact ((C6_mark_passing_guarded (i := 3) (by decide)).2.2
      (by decide)).trans (by decide)

/-- Claim C4: `feature_skip` on an existing not-passing feature sets its
priority to one plus the maximum priority over all features — strictly
greater than every other current priority — clears `in_progress`, and
leaves every `passes` field unchanged. -/
theorem C4_skip_sets_max_plus_one {db : DB} {i : Nat} {f : Feature}
    (hfind : findFeature db i = some f) (hpass : f.passes = false) :
    (feature_skip db i =
      (.ok { id := i, name := f.name, old_priority := f.priority,
             new_priority := maxPriority db + 1 },
       db.map (fun r => if r.id == i then
         { r with priority := maxPriority db + 1, in_progress := false }
         else r))) ∧
    (∀ g ∈ db, g.id ≠ i → g.priority < maxPriority db + 1) ∧
    ((feature_skip db i).2.map Feature.passes = db.map Feature.passes) := by
  obtain ⟨hmem, hfid⟩ := findFeature_mem hfind
  have hfound : findFeature ((updateWhere db (fun r => r.id == i)
      (fun r =>
        { r with priority := maxPriority db + 1, in_progress := false })).1)
      i =
      some { f with priority := maxPriority db + 1, in_progress := false } :=
      by
    unfold updateWhere
    rw [findFeature_map (fun r => by
      by_cases h : (r.id == i) = true <;> simp [h]), hfind]
    simp only [Option.map]
    rw [show (f.id == i) = true from beq_iff_eq.mpr hfid]
    simp
  have hmain : feature_skip db i =
      (.ok { id := i, name := f.name, old_priority := f.priority,
             new_priority := maxPriority db + 1 },
       db.map (fun r => if r.id == i then
         { r with priority := maxPriority db + 1, in_progress := false }
         else r)) := by
    unfold feature_skip
    rw [hfind]
    simp only [hpass, Bool.false_eq_true, if_false]
    rw [hfound]
    rfl
  refine ⟨hmain, ?_, ?_⟩
  · intro g hg _
    have := le_maxPriority hg
    omega
  · rw [hmain]
    show (db.map _).map Feature.passes = db.map Feature.passes
    rw [List.map_map]
    apply List.map_congr_left
    intro r _
    by_cases h : r.id = i
    · simp [h]
    · simp [h]

/-- Claim C4 witness: skipping feature 1 of a concrete table. -/
theorem C4_skip_sets_max_plus_one_witness :
    feature_skip
        [mkFeature 1 1 false true none, mkFeature 2 7 false false none] 1 =
      (.ok { id := 1, name := "feature", old_priority := 1,
             new_priority := 8 },
       [mkFeature 1 8 false false none, mkFeature 2 7 false false none]) ∧
    (7 : Int) < 8 := by
  have h := @C4_skip_sets_max_plus_one
    [mkFeature 1 1 false true none, mkFeature 2 7 false false none]
    1 (mkFeature 1 1 false true none) (by decide) (by decide)
  refine ⟨h.1.trans (by decide), ?_⟩
  exact h.2.1 (mkFeature 2 7 false false none) (by decide) (by decide)

/-- A fresh claim: the guarded update matches the pending row. -/
theorem claim_fresh {db : DB} {i : Nat} {f : Feature}
    (hnd : DBWellFormed db) (hfind : findFeature db i = some f)
    (hpass : f.passes = false) (hip : f.in_progress = false) :
    feature_claim_and_get db i =
      (.ok { feature := { f with in_progress := true },
             already_claimed := false },
       db.map (fun r => if r.id == i then
         { r with in_progress := true } else r)) := by
  obtain ⟨hmem, hfid⟩ := findFeature_mem hfind
  have hp : (f.id == i && !f.passes && !f.in_progress) = true := by
    simp [hfid, hpass, hip]
  have hpos :
      0 < db.countP (fun r => r.id == i && !r.passes && !r.in_progress) :=
    List.countP_pos_iff.mpr ⟨f, hmem, hp⟩
  have hz : (db.countP
      (fun r => r.id == i && !r.passes && !r.in_progress) == 0) = false := by
    rw [beq_eq_false_iff_ne]
    omega
  have hmapeq :
      db.map (fun r => if r.id == i && !r.passes && !r.in_progress then
        { r with in_progress := true } else r) =
      db.map (fun r => if r.id == i then
        { r with in_progress := true } else r) := by
    apply List.map_congr_left
    intro r hr
    by_cases hrid : r.id = i
    · have hrf : r = f := mem_id_unique hnd hr hmem (by rw [hrid, hfid])
      subst hrf
      simp [hrid, hpass, hip]
    · simp [hrid]
  have hfound : findFeature
      (db.map (fun r => if r.id == i then
        { r with in_progress := true } else r)) i =
      some { f with in_progress := true } := by
    rw [findFeature_map (fun r => by
      by_cases h : (r.id == i) = true <;> simp [h]), hfind]
    simp only [Option.map]
    rw [show (f.id == i) = true from beq_iff_eq.mpr hfid]
    simp
  unfold feature_claim_and_get updateWhere
  rw [hfind]
  simp only [hpass, Bool.false_eq_true, if_false, hz]
  rw [hmapeq, hfound]
  simp [hpass]

/-- An idempotent re-claim: the zero-row update is reported as success
with `already_claimed = true` and the table is unchanged. -/
theorem claim_already {db : DB} {i : Nat} {f : Feature}
    (hnd : DBWellFormed db) (hfind : findFeature db i = some f)
    (hpass : f.passes = false) (hip : f.in_progress = true) :
    feature_claim_and_get db i =
      (.ok { feature := f, already_claimed := true }, db) := by
  have hnone : ∀ r ∈ db,
      ¬ ((r.id == i && !r.passes && !r.in_progress) = true) := by
    intro r hr hcon
    have hc : (r.id = i ∧ r.passes = false) ∧ r.in_progress = false := by
      simpa [and_assoc] using hcon
    have hrf : r = f := mem_id_unique hnd hr (findFeature_mem hfind).1
      (by rw [hc.1.1, (findFeature_mem hfind).2])
    rw [hrf, hip] at hc
    exact (by simp at hc : False)
  unfold feature_claim_and_get
  rw [hfind]
  simp only [hpass, Bool.false_eq_true, if_false,
    updateWhere_no_match hnone]
  simp [hfind, hip]

/-- Claim C3: `feature_claim_and_get` on an existing not-passing feature
claims it fresh (`already_claimed = false`) when it was not in progress,
is a no-op reporting `already_claimed = true` when it was, and hence two
consecutive calls leave the state of one call, the second reporting
`already_claimed = true`. -/
theorem C3_claim_and_get_idempotent {db : DB} {i : Nat} {f : Feature}
    (hnd : DBWellFormed db) (hfind : findFeature db i = some f)
    (hpass : f.passes = false) :
    (f.in_progress = false →
       feature_claim_and_get db i =
         (.ok { feature := { f with in_progress := true },
                already_claimed := false },
          db.map (fun r => if r.id == i then
            { r with in_progress := true } else r))) ∧
    (f.in_progress = true →
       feature_claim_and_get db i =
         (.ok { feature := f, already_claimed := true }, db)) ∧
    (feature_claim_and_get (feature_claim_and_get db i).2 i =
       (.ok { feature := { f with in_progress := true },
              already_claimed := true },
        (feature_claim_and_get db i).2)) := by
  by_cases hip : f.in_progress = true
  · have h1 := claim_already hnd hfind hpass hip
    have hfeq : { f with in_progress := true } = f := by
      cases f
      simp_all
    refine ⟨?_, fun _ => h1, ?_⟩
    · intro h0
      rw [h0] at hip
      cases hip
    · rw [h1, hfeq]
      exact h1
  · rw [Bool.not_eq_true] at hip
    have h1 := claim_fresh hnd hfind hpass hip
    refine ⟨fun _ => h1, ?_, ?_⟩
    · intro h
      rw [h] at hip
      cases hip
    rw [h1]
    show feature_claim_and_get
      (db.map (fun r => if r.id == i then
        { r with in_progress := true } else r)) i = _
    have hid : ∀ r : Feature,
        ((if r.id == i then { r with in_progress := true } else r) : Feature).id
          = r.id := by
      intro r
      by_cases h : (r.id == i) = true <;> simp [h]
    have hnd2 : DBWellFormed (db.map (fun r => if r.id == i then
        { r with in_progress := true } else r)) := wellFormed_map hnd hid
    have hfind2 : findFeature (db.map (fun r => if r.id == i then
        { r with in_progress := true } else r)) i =
        some { f with in_progress := true } := by
      rw [findFeature_map hid, hfind]
      simp only [Option.map]
      rw [show (f.id == i) = true from
        beq_iff_eq.mpr (findFeature_mem hfind).2]
      simp
    exact claim_already hnd2 hfind2 hpass rfl

/-- Claim C3 witness: claiming feature 1 of a concrete table twice. -/
theorem C3_claim_and_get_idempotent_witness :
    feature_claim_and_get [mkFeature 1 1 false false none] 1 =
      (.ok { feature := mkFeature 1 1 false true none,
             already_claimed := false },
       [mkFeature 1 1 false true none]) ∧
    feature_claim_and_get
        (feature_claim_and_get [mkFeature 1 1 false false none] 1).2 1 =
      (.ok { feature := mkFeature 1 1 false true none,
             already_claimed := true },
       (feature_claim_and_get [mkFeature 1 1 false false none] 1).2) := by
  have h := @C3_claim_and_get_idempotent
    [mkFeature 1 1 false false none] 1
    (mkFeature 1 1 false false none) (by decide) (by decide) (by decide)
  refine ⟨(h.1 (by decide)).trans (by decide), h.2.2.trans (by decide)⟩

theorem mem_readyFeatures_iff {db : DB} {f : Feature} (hf : f ∈ db) :
    f ∈ readyFeatures db ↔
      (f.passes = false ∧ f.in_progress = false ∧
        ∀ d ∈ depsOf f, ∃ g ∈ db, g.id = d ∧ g.passes = true) := by
  unfold readyFeatures
  rw [List.mem_filter]
  simp only [hf, true_and, Bool.and_eq_true, Bool.not_eq_true',
    List.all_eq_true, decide_eq_true_eq, and_assoc]
  constructor
  · rintro ⟨h1, h2, h3⟩
    exact ⟨h1, h2, fun d hd => mem_passingIds.mp (h3 d hd)⟩
  · rintro ⟨h1, h2, h3⟩
    exact ⟨h1, h2, fun d hd => mem_passingIds.mpr (h3 d hd)⟩

theorem mem_blockedEntries_iff {db : DB} {e : BlockedEntry} :
    e ∈ blockedEntries db ↔
      e.feature ∈ db ∧ e.feature.passes = false ∧
        blockingOf db e.feature ≠ [] ∧
        e.blocked_by = blockingOf db e.feature := by
  unfold blockedEntries
  rw [List.mem_filterMap]
  constructor
  · rintro ⟨a, ha, heq⟩
    by_cases hp : a.passes = true
    · rw [if_pos hp] at heq; cases heq
    · rw [Bool.not_eq_true] at hp
      rw [if_neg (by rw [hp]; exact Bool.false_ne_true)] at heq
      by_cases hemp : (blockingOf db a).isEmpty = true
      · rw [if_pos hemp] at heq; cases heq
      · rw [if_neg hemp] at heq
        have he : e = { feature := a, blocked_by := blockingOf db a } :=
          (Option.some.injEq _ _ ▸ heq).symm
        subst he
        refine ⟨ha, hp, ?_, rfl⟩
        intro hnil
        rw [show blockingOf db a = [] from hnil] at hemp
        exact hemp rfl
  · rintro ⟨hmem, hp, hbne, hbb⟩
    refine ⟨e.feature, hmem, ?_⟩
    rw [if_neg (by rw [hp]; exact Bool.false_ne_true),
      if_neg (by rw [List.isEmpty_iff]; exact fun h => hbne h)]
    show some _ = some e
    congr 1
    cases e
    simp only at hbb
    rw [hbb]

/-- Claim C2 counterexample: a passing feature is in neither `get_ready` nor
`get_blocked`, refuting that every feature missing from `get_ready`
appears in `get_blocked`. -/
theorem C2_counterexample :
    (mkFeature 1 5 true false none) ∈
      ([mkFeature 1 5 true false none] : DB) ∧
    (mkFeature 1 5 true false none) ∉
      (feature_get_ready [mkFeature 1 5 true false none] 10).features ∧
    (feature_get_blocked [mkFeature 1 5 true false none] 20).features
      = [] := by
  refine ⟨by decide, by decide, by decide⟩

/-- Claim C2 (amended): a feature is among the ready features (returned by
`get_ready` when within the limit) iff it is not passing, not in
progress, and every dependency id is the id of a passing feature; it is
among the blocked entries (returned by `get_blocked` when within the
limit) iff it is not passing and has at least one unmet dependency, and
its `blocked_by` holds exactly its dependency ids that are not ids of
passing features. -/
theorem C2_ready_blocked_classification {db : DB} {f : Feature}
    {limit : Nat} (hf : f ∈ db) :
    (f ∈ readyFeatures db ↔
      (f.passes = false ∧ f.in_progress = false ∧
        ∀ d ∈ depsOf f, ∃ g ∈ db, g.id = d ∧ g.passes = true)) ∧
    ((∃ e ∈ blockedEntries db, e.feature = f) ↔
      (f.passes = false ∧
        ∃ d ∈ depsOf f, ¬ ∃ g ∈ db, g.id = d ∧ g.passes = true)) ∧
    (∀ e ∈ blockedEntries db, e.feature = f →
       ∀ d, d ∈ e.blocked_by ↔
         (d ∈ depsOf f ∧ ¬ ∃ g ∈ db, g.id = d ∧ g.passes = true)) ∧
    ((readyFeatures db).length ≤ limit →
       (f ∈ (feature_get_ready db limit).features ↔
         f ∈ readyFeatures db)) ∧
    ((blockedEntries db).length ≤ limit →
       ∀ e, e ∈ (feature_get_blocked db limit).features ↔
         e ∈ blockedEntries db) := by
  have hblock : ∀ d, d ∈ blockingOf db f ↔
      (d ∈ depsOf f ∧ ¬ ∃ g ∈ db, g.id = d ∧ g.passes = true) := by
    intro d
    unfold blockingOf
    rw [List.mem_filter]
    simp only [Bool.not_eq_true', decide_eq_false_iff_not]
    rw [mem_passingIds]
  refine ⟨mem_readyFeatures_iff hf, ?_, ?_, ?_, ?_⟩
  · constructor
    · rintro ⟨e, he, rfl⟩
      obtain ⟨_, hp, hbne, _⟩ := mem_blockedEntries_iff.mp he
      obtain ⟨d, hd⟩ := List.exists_mem_of_ne_nil _ hbne
      exact ⟨hp, d, ((hblock d).mp hd).1, ((hblock d).mp hd).2⟩
    · rintro ⟨hp, d, hd, hnp⟩
      refine ⟨{ feature := f, blocked_by := blockingOf db f }, ?_, rfl⟩
      rw [mem_blockedEntries_iff]
      exact ⟨hf, hp, List.ne_nil_of_mem ((hblock d).mpr ⟨hd, hnp⟩), rfl⟩
  · intro e he hef d
    obtain ⟨_, _, _, hbb⟩ := mem_blockedEntries_iff.mp he
    rw [hbb, hef]
    exact hblock d
  · intro hlen
    unfold feature_get_ready
    simp only
    rw [List.take_of_length_le
      (by rw [(pySortBy_perm _ _).length_eq]; exact hlen)]
    exact mem_pySortBy
  · intro hlen e
    unfold feature_get_blocked
    simp only
    rw [List.take_of_length_le hlen]

/-- Claim C2 witness: the classification on a concrete three-row chain. -/
theorem C2_ready_blocked_classification_witness :
    (mkFeature 2 2 false false (some [1])) ∈ readyFeatures
      [mkFeature 1 1 true false none, mkFeature 2 2 false false (some [1]),
       mkFeature 3 3 false false (some [2])] ∧
    (∃ e ∈ blockedEntries
      [mkFeature 1 1 true false none, mkFeature 2 2 false false (some [1]),
       mkFeature 3 3 false false (some [2])],
      e.feature = mkFeature 3 3 false false (some [2])) := by
  constructor
  · exact (@C2_ready_blocked_classification
      [mkFeature 1 1 true false none, mkFeature 2 2 false false (some [1]),
       mkFeature 3 3 false false (some [2])]
      (mkFeature 2 2 false false (some [1])) 10
      (by decide)).1.mpr (by decide)
  · exact (@C2_ready_blocked_classification
      [mkFeature 1 1 true false none, mkFeature 2 2 false false (some [1]),
       mkFeature 3 3 false false (some [2])]
      (mkFeature 3 3 false false (some [2])) 10
      (by decide)).2.1.mpr (by decide)

/-- Claim C9 counterexample: a passing feature with a dangling dependency id
is not returned by `get_blocked`, refuting the unconditional claim. -/
theorem C9_counterexample :
    2 ∈ depsOf (mkFeature 1 5 true false (some [2])) ∧
    (∀ g ∈ ([mkFeature 1 5 true false (some [2])] : DB), g.id ≠ 2) ∧
    (feature_get_blocked [mkFeature 1 5 true false (some [2])] 20).features
      = [] := by
  refine ⟨by decide, by decide, by decide⟩

/-- Claim C9 (amended): a dependency id naming no feature is treated as unmet:
the feature is never returned by `get_ready`, and — when the feature is
not passing — it is among the blocked entries with the dangling id in
`blocked_by`, returned by `get_blocked` whenever within the limit. -/
theorem C9_dangling_dependency {db : DB} {f : Feature} {d : Nat}
    (hf : f ∈ db) (hd : d ∈ depsOf f) (hdang : ∀ g ∈ db, g.id ≠ d) :
    (∀ limit, f ∉ (feature_get_ready db limit).features) ∧
    (f.passes = false →
      ∃ e ∈ blockedEntries db, e.feature = f ∧ d ∈ e.blocked_by ∧
        ∀ limit, (blockedEntries db).length ≤ limit →
          e ∈ (feature_get_blocked db limit).features) := by
  have hnp : ¬ ∃ g ∈ db, g.id = d ∧ g.passes = true := by
    rintro ⟨g, hg, hgid, _⟩
    exact hdang g hg hgid
  constructor
  · intro limit hmemf
    have hready : f ∈ readyFeatures db := by
      have := List.mem_of_mem_take hmemf
      exact mem_pySortBy.mp this
    obtain ⟨_, _, hall⟩ := (mem_readyFeatures_iff hf).mp hready
    obtain ⟨g, hg, hgid, _⟩ := hall d hd
    exact hdang g hg hgid
  · intro hp
    have hdmem : d ∈ blockingOf db f := by
      unfold blockingOf
      rw [List.mem_filter]
      refine ⟨hd, ?_⟩
      simp only [Bool.not_eq_true', decide_eq_false_iff_not]
      rw [mem_passingIds]
      exact hnp
    refine ⟨{ feature := f, blocked_by := blockingOf db f }, ?_, rfl,
      hdmem, ?_⟩
    · rw [mem_blockedEntries_iff]
      exact ⟨hf, hp, List.ne_nil_of_mem hdmem, rfl⟩
    · intro limit hlen
      unfold feature_get_blocked
      simp only
      rw [List.take_of_length_le hlen, mem_blockedEntries_iff]
      exact ⟨hf, hp, List.ne_nil_of_mem hdmem, rfl⟩

/-- Claim C9 witness: a pending feature with dangling dependency 7 on a
concrete table. -/
theorem C9_dangling_dependency_witness :
    (mkFeature 1 1 false false (some [7])) ∉
      (feature_get_ready [mkFeature 1 1 false false (some [7])] 10).features ∧
    ∃ e ∈ blockedEntries [mkFeature 1 1 false false (some [7])],
      e.feature = mkFeature 1 1 false false (some [7]) ∧
      7 ∈ e.blocked_by := by
  have h := @C9_dangling_dependency
    [mkFeature 1 1 false false (some [7])]
    (mkFeature 1 1 false false (some [7])) 7
    (by decide) (by decide) (by decide)
  obtain ⟨e, he, hef, hdb, _⟩ := h.2 (by decide)
  exact ⟨h.1 10, e, he, hef, hdb⟩

/-- Claim C7: on the chain where 2 depends on 1 and 3 depends on 2 the
scheduling scores strictly decrease along the chain, and on the diamond
(2 and 3 depend on 1, 4 depends on 2 and 3) the root scores strictly
highest and the sink strictly lowest. -/
theorem C7_scheduling_scores_chain_and_diamond :
    (compute_scheduling_scores
        [mkFeature 1 1 false false none,
         mkFeature 2 2 false false (some [1]),
         mkFeature 3 3 false false (some [2])] 1 >
      compute_scheduling_scores
        [mkFeature 1 1 false false none,
         mkFeature 2 2 false false (some [1]),
         mkFeature 3 3 false false (some [2])] 2 ∧
      compute_scheduling_scores
        [mkFeature 1 1 false false none,
         mkFeature 2 2 false false (some [1]),
         mkFeature 3 3 false false (some [2])] 2 >
      compute_scheduling_scores
        [mkFeature 1 1 false false none,
         mkFeature 2 2 false false (some [1]),
         mkFeature 3 3 false false (some [2])] 3) ∧
    (∀ j ∈ [2, 3, 4],
      compute_scheduling_scores
        [mkFeature 1 1 false false none,
         mkFeature 2 2 false false (some [1]),
         mkFeature 3 3 false false (some [1]),
         mkFeature 4 4 false false (some [2, 3])] 1 >
      compute_scheduling_scores
        [mkFeature 1 1 false false none,
         mkFeature 2 2 false false (some [1]),
         mkFeature 3 3 false false (some [1]),
         mkFeature 4 4 false false (some [2, 3])] j) ∧
    (∀ j ∈ [1, 2, 3],
      compute_scheduling_scores
        [mkFeature 1 1 false false none,
         mkFeature 2 2 false false (some [1]),
         mkFeature 3 3 false false (some [1]),
         mkFeature 4 4 false false (some [2, 3])] 4 <
      compute_scheduling_scores
        [mkFeature 1 1 false false none,
         mkFeature 2 2 false false (some [1]),
         mkFeature 3 3 false false (some [1]),
         mkFeature 4 4 false false (some [2, 3])] j) := by
  refine ⟨by decide, by decide, by decide⟩

theorem firstSpecErrorFrom_eq_none_iff (maxDeps : Nat) :
    ∀ (specs : List BulkSpec) (k : Nat),
      firstSpecErrorFrom maxDeps k specs = none ↔
        ∀ (i : Nat) (h : i < specs.length),
          specErrorMsg maxDeps (k + i) (specs.get ⟨i, h⟩) = none := by
  intro specs
  induction specs with
  | nil =>
    intro k
    constructor
    · intro _ i h
      cases h
    · intro _
      rfl
  | cons s rest ih =>
    intro k
    rw [show firstSpecErrorFrom maxDeps k (s :: rest) =
      (match specErrorMsg maxDeps k s with
       | some m => some (k, m)
       | none => firstSpecErrorFrom maxDeps (k + 1) rest) from rfl]
    cases hs : specErrorMsg maxDeps k s with
    | some m =>
      constructor
      · intro h
        cases h
      · intro h
        have h0 := h 0 (Nat.succ_pos _)
        rw [Nat.add_zero] at h0
        rw [show (s :: rest).get ⟨0, Nat.succ_pos _⟩ = s from rfl] at h0
        rw [h0] at hs
        cases hs
    | none =>
      show firstSpecErrorFrom maxDeps (k + 1) rest = none ↔ _
      rw [ih (k + 1)]
      constructor
      · intro h i hi
        cases i with
        | zero =>
          rw [Nat.add_zero]
          exact hs
        | succ n =>
          have hn : n < rest.length := Nat.lt_of_succ_lt_succ hi
          have hh := h n hn
          rw [show k + (n + 1) = (k + 1) + n by omega]
          exact hh
      · intro h n hn
        have hh := h (n + 1) (Nat.succ_lt_succ hn)
        rw [show k + (n + 1) = (k + 1) + n by omega] at hh
        exact hh

theorem firstSpecErrorFrom_some (maxDeps : Nat) :
    ∀ (specs : List BulkSpec) (k i : Nat) (m : String),
      firstSpecErrorFrom maxDeps k specs = some (i, m) →
        ∃ (j : Nat) (h : j < specs.length), i = k + j ∧
          specErrorMsg maxDeps i (specs.get ⟨j, h⟩) = some m := by
  intro specs
  induction specs with
  | nil =>
    intro k i m h
    cases h
  | cons s rest ih =>
    intro k i m h
    rw [show firstSpecErrorFrom maxDeps k (s :: rest) =
      (match specErrorMsg maxDeps k s with
       | some m2 => some (k, m2)
       | none => firstSpecErrorFrom maxDeps (k + 1) rest) from rfl] at h
    cases hs : specErrorMsg maxDeps k s with
    | some m2 =>
      rw [hs] at h
      have hkm : k = i ∧ m2 = m := by
        have := Option.some.injEq (k, m2) (i, m) ▸ h
        exact ⟨congrArg Prod.fst this, congrArg Prod.snd this⟩
      refine ⟨0, Nat.succ_pos _, by omega, ?_⟩
      rw [show (s :: rest).get ⟨0, Nat.succ_pos _⟩ = s from rfl,
        ← hkm.1, hs, hkm.2]
    | none =>
      rw [hs] at h
      obtain ⟨j, hj, hij, hmsg⟩ := ih (k + 1) i m h
      exact ⟨j + 1, Nat.succ_lt_succ hj, by omega, hmsg⟩

/-- Claim C5: `feature_create_bulk` validates every spec before writing: when
some spec fails a validation, the call returns the error message of the
first failing spec — which names that index — and the table is
unchanged; when every spec is valid, every spec is created, with
sequential priorities starting at the current maximum plus one and
index dependencies resolved to the ids of the earlier rows of the same
batch (the shape of `bulkRow`). -/
theorem C5_create_bulk_validate_then_create (maxDeps : Nat) (db : DB)
    (specs : List BulkSpec) :
    ((∃ (i : Nat) (h : i < specs.length),
        specErrorMsg maxDeps i (specs.get ⟨i, h⟩) ≠ none) →
      ∃ (i : Nat) (h : i < specs.length) (m : String),
        specErrorMsg maxDeps i (specs.get ⟨i, h⟩) = some m ∧
        feature_create_bulk maxDeps db specs = (.error m, db)) ∧
    ((∀ (i : Nat) (h : i < specs.length),
        specErrorMsg maxDeps i (specs.get ⟨i, h⟩) = none) →
      feature_create_bulk maxDeps db specs =
        (.ok { created := specs.length,
               with_dependencies :=
                 specs.countP (fun s => !s.depends_on_indices.isEmpty) },
         db ++ specs.mapIdx (fun i s => bulkRow db i s))) := by
  constructor
  · intro hbad
    cases hfe : firstSpecErrorFrom maxDeps 0 specs with
    | none =>
      obtain ⟨i, h, hne⟩ := hbad
      have := ((firstSpecErrorFrom_eq_none_iff maxDeps specs 0).mp hfe) i h
      rw [Nat.zero_add] at this
      exact absurd this hne
    | some im =>
      obtain ⟨j, hj, hij, hmsg⟩ :=
        firstSpecErrorFrom_some maxDeps specs 0 im.1 im.2 (by rw [hfe])
      rw [show im.1 = j by omega] at hmsg
      refine ⟨j, hj, im.2, hmsg, ?_⟩
      unfold feature_create_bulk
      rw [hfe]
  · intro hgood
    have hfe : firstSpecErrorFrom maxDeps 0 specs = none := by
      rw [firstSpecErrorFrom_eq_none_iff]
      intro i h
      rw [Nat.zero_add]
      exact hgood i h
    unfold feature_create_bulk
    rw [hfe]
    simp [List.length_mapIdx]

/-- Claim C5 witness: a fully valid two-spec batch on an empty table, and a
batch whose second spec forward-references itself. -/
theorem C5_create_bulk_witness :
    feature_create_bulk 50 [] [specOk, specDep0] =
      (.ok { created := 2, with_dependencies := 1 },
       [bulkRow [] 0 specOk, bulkRow [] 1 specDep0]) ∧
    (∃ (i : Nat) (h : i < ([specOk, specFwd] : List BulkSpec).length)
       (m : String),
      specErrorMsg 50 i (([specOk, specFwd] : List BulkSpec).get ⟨i, h⟩) =
        some m ∧
      feature_create_bulk 50 [] [specOk, specFwd] = (.error m, [])) := by
  constructor
  · exact ((C5_create_bulk_validate_then_create 50 [] [specOk, specDep0]).2
      (by decide)).trans (by decide)
  · exact (C5_create_bulk_validate_then_create 50 [] [specOk, specFwd]).1
      ⟨1, by decide, by decide⟩

/-! ## Claim C1: cycle safety of the dependency edits -/
theorem add_dependency_db_cases (maxDeps : Nat) (db : DB)
    (fid did : Nat) :
    (feature_add_dependency maxDeps db fid did).2 = db ∨
    ∃ f, findFeature db fid = some f ∧
      would_create_circular_dependency db fid did = false ∧
      feature_add_dependency maxDeps db fid did =
        (.ok { feature_id := fid,
               dependencies := pySorted (depsOf f ++ [did]) },
         setRowDeps db fid (some (pySorted (depsOf f ++ [did])))) := by
  unfold feature_add_dependency
  dsimp only
  split
  · exact Or.inl rfl
  cases hfind : findFeature db fid with
  | none => exact Or.inl rfl
  | some feature =>
    cases hfind2 : findFeature db did with
    | none => exact Or.inl rfl
    | some g =>
      dsimp only
      by_cases hlen : maxDeps ≤ (depsOf feature).length
      · rw [if_pos hlen]
        exact Or.inl rfl
      rw [if_neg hlen]
      by_cases hdup : did ∈ depsOf feature
      · rw [if_pos hdup]
        exact Or.inl rfl
      rw [if_neg hdup]
      by_cases hw : would_create_circular_dependency db fid did = true
      · rw [if_pos hw]
        exact Or.inl rfl
      rw [if_neg hw]
      exact Or.inr ⟨feature, rfl, Bool.not_eq_true _ ▸ hw, rfl⟩

theorem set_dependencies_db_cases (maxDeps : Nat) (db : DB)
    (fid : Nat) (ds : List Nat) :
    (feature_set_dependencies maxDeps db fid ds).2 = db ∨
    ∃ f, findFeature db fid = some f ∧
      firstCircular (setRowDeps db fid (some ds)) fid ds = none ∧
      feature_set_dependencies maxDeps db fid ds =
        (.ok { feature_id := fid, dependencies := pySorted ds },
         setRowDeps db fid
           (if ds.isEmpty then none else some (pySorted ds))) := by
  unfold feature_set_dependencies
  dsimp only
  by_cases hself : fid ∈ ds
  · rw [if_pos hself]
    exact Or.inl rfl
  rw [if_neg hself]
  by_cases hlen : maxDeps < ds.length
  · rw [if_pos hlen]
    exact Or.inl rfl
  rw [if_neg hlen]
  by_cases hdup : ds.dedup.length ≠ ds.length
  · rw [if_pos hdup]
    exact Or.inl rfl
  rw [if_neg hdup]
  cases hfind : findFeature db fid with
  | none => exact Or.inl rfl
  | some f =>
    dsimp only
    by_cases hmiss : (!(ds.filter (fun d => !isFeatureId db d)).isEmpty) = true
    · rw [if_pos hmiss]
      exact Or.inl rfl
    rw [if_neg hmiss]
    cases hfc : firstCircular (setRowDeps db fid (some ds)) fid ds with
    | some d => exact Or.inl rfl
    | none => exact Or.inr ⟨f, rfl, rfl, rfl⟩

theorem acyclic_forall {db : DB} :
    Acyclic db ↔ ∀ a, ¬ Relation.TransGen (Edge db) a a := by
  unfold Acyclic HasCycle
  push_neg
  exact Iff.rfl

theorem depsOfId_of_find {db : DB} {i : Nat} {f : Feature}
    (hfind : findFeature db i = some f) : depsOfId db i = depsOf f := by
  unfold depsOfId
  rw [hfind]
  rfl

/-- The edge relation of the table committed by `feature_add_dependency`:
the old edges plus the single new edge `fid → did`. -/
theorem Edge_add_commit {db : DB} {fid did : Nat} {f : Feature}
    (hfind : findFeature db fid = some f) :
    ∀ x y, Edge (setRowDeps db fid
        (some (pySorted (depsOf f ++ [did])))) x y ↔
      (Edge db x y ∨ (x = fid ∧ y = did)) := by
  intro x y
  by_cases hx : x = fid
  · show y ∈ depsOfId _ x ↔ _
    rw [hx, depsOfId_setRowDeps_self hfind]
    show y ∈ pySorted (depsOf f ++ [did]) ↔ _
    rw [mem_pySorted, List.mem_append, List.mem_singleton]
    rw [show Edge db fid y ↔ y ∈ depsOf f from by
      show y ∈ depsOfId db fid ↔ _
      rw [depsOfId_of_find hfind]]
    constructor
    · rintro (h1 | h1)
      exacts [Or.inl h1, Or.inr ⟨rfl, h1⟩]
    · rintro (h1 | ⟨_, h1⟩)
      exacts [Or.inl h1, Or.inr h1]
  · show y ∈ depsOfId _ x ↔ _
    rw [depsOfId_setRowDeps_ne hx]
    constructor
    · exact fun h1 => Or.inl h1
    · rintro (h1 | ⟨hx2, _⟩)
      exacts [h1, absurd hx2 hx]

/-- After a successful `feature_add_dependency` on an acyclic table the
committed table is acyclic. -/
theorem add_candidate_acyclic {db : DB} {fid did : Nat} {f : Feature}
    (hacy : Acyclic db) (hfind : findFeature db fid = some f)
    (hw : would_create_circular_dependency db fid did = false) :
    Acyclic (setRowDeps db fid (some (pySorted (depsOf f ++ [did])))) := by
  obtain ⟨_, hnr⟩ := would_create_circular_dependency_false_iff.mp hw
  rw [acyclic_forall]
  exact acyclic_add_edge (Edge_add_commit hfind) (acyclic_forall.mp hacy)
    hnr

/-- The candidate graph checked by `feature_set_dependencies` (the row
already carrying the new list) is acyclic when the detector accepted
every new edge. -/
theorem set_candidate_acyclic {db : DB} {fid : Nat} {ds : List Nat}
    {f : Feature} (hacy : Acyclic db)
    (hfind : findFeature db fid = some f)
    (hfc : firstCircular (setRowDeps db fid (some ds)) fid ds = none) :
    Acyclic (setRowDeps db fid (some ds)) := by
  have hne : ∀ x y, x ≠ fid →
      (Edge (setRowDeps db fid (some ds)) x y ↔ Edge db x y) := by
    intro x y hx
    show y ∈ depsOfId _ x ↔ y ∈ depsOfId db x
    rw [depsOfId_setRowDeps_ne hx]
  have hnew : ∀ b, Edge (setRowDeps db fid (some ds)) fid b →
      ¬ Relation.ReflTransGen (Edge (setRowDeps db fid (some ds))) b fid := by
    intro b hb
    have hbds : b ∈ ds := by
      have hdeps := depsOfId_setRowDeps_self (d := some ds) hfind
      have : b ∈ depsOfId (setRowDeps db fid (some ds)) fid := hb
      rw [hdeps] at this
      exact this
    have hwb := (firstCircular_eq_none_iff.mp hfc) b hbds
    exact (would_create_circular_dependency_false_iff.mp hwb).2
  rw [acyclic_forall]
  exact acyclic_of_changed_row hne (acyclic_forall.mp hacy) hnew

/-- The committed table of `feature_set_dependencies` (sorted list, NULL
when empty) has exactly the edges of the checked candidate table. -/
theorem Edge_set_commit {db : DB} {fid : Nat} {ds : List Nat}
    {f : Feature} (hfind : findFeature db fid = some f) :
    Edge (setRowDeps db fid (if ds.isEmpty then none
      else some (pySorted ds))) = Edge (setRowDeps db fid (some ds)) := by
  apply Edge_ext
  intro x y
  by_cases hx : x = fid
  · show y ∈ depsOfId _ x ↔ y ∈ depsOfId _ x
    rw [hx, depsOfId_setRowDeps_self hfind, depsOfId_setRowDeps_self hfind]
    by_cases hds : ds.isEmpty = true
    · rw [if_pos hds, List.isEmpty_iff.mp hds]
      exact Iff.rfl
    · rw [if_neg hds]
      show y ∈ pySorted ds ↔ y ∈ ds
      exact mem_pySorted
  · show y ∈ depsOfId _ x ↔ y ∈ depsOfId _ x
    rw [depsOfId_setRowDeps_ne hx, depsOfId_setRowDeps_ne hx]

/-- Claim C1 counterexample: on a one-row table, adding the edge 1 → 1 would
make the transitively closed dependency relation cyclic, yet
`add_dependency(1, 1)` reports the self-reference error — not a
circular-dependency error — because the self check fires first.  (The
table is left unchanged.) -/
theorem C1_counterexample :
    HasCycle (setRowDeps [mkFeature 1 1 false false none] 1 (some [1])) ∧
    feature_add_dependency 50 [mkFeature 1 1 false false none] 1 1 =
      (.error "A feature cannot depend on itself",
       [mkFeature 1 1 false false none]) := by
  constructor
  · exact ⟨1, Relation.TransGen.single (by decide)⟩
  · decide

/-- Claim C1 (amended): every rejected dependency edit leaves the table
unchanged; every accepted edit on an acyclic table leaves it acyclic;
and an edit that would close a cycle is rejected with the
circular-dependency error provided the arguments pass the validations
checked before the cycle detector (self-reference, existence, fan-in
limit, duplicates). -/
theorem C1_dependency_edits_cycle_safe (maxDeps : Nat) (db : DB)
    (fid did : Nat) (ds : List Nat) :
    (∀ m db2, feature_add_dependency maxDeps db fid did = (.error m, db2) →
       db2 = db) ∧
    (∀ m db2, feature_set_dependencies maxDeps db fid ds = (.error m, db2) →
       db2 = db) ∧
    (Acyclic db →
      ∀ v db2, feature_add_dependency maxDeps db fid did = (.ok v, db2) →
        Acyclic db2) ∧
    (Acyclic db →
      ∀ v db2, feature_set_dependencies maxDeps db fid ds = (.ok v, db2) →
        Acyclic db2) ∧
    (Acyclic db →
      ∀ f, findFeature db fid = some f → isFeatureId db did = true →
        fid ≠ did → (depsOf f).length < maxDeps → did ∉ depsOf f →
        HasCycle (setRowDeps db fid
          (some (pySorted (depsOf f ++ [did])))) →
        feature_add_dependency maxDeps db fid did =
          (.error "Cannot add: would create circular dependency", db)) ∧
    (Acyclic db →
      fid ∉ ds → ds.length ≤ maxDeps → ds.Nodup →
      isFeatureId db fid = true → (∀ d ∈ ds, isFeatureId db d = true) →
      HasCycle (setRowDeps db fid (some ds)) →
      ∃ d : Nat, feature_set_dependencies maxDeps db fid ds =
        (.error
          s!"Cannot add dependency {d}: would create circular dependency",
         db)) := by
  refine ⟨?_, ?_, ?_, ?_, ?_, ?_⟩
  · intro m db2 h
    rcases add_dependency_db_cases maxDeps db fid did with
      h2 | ⟨f, _, _, hok⟩
    · rw [h] at h2
      exact h2
    · rw [h] at hok
      exact absurd (congrArg Prod.fst hok) (by simp)
  · intro m db2 h
    rcases set_dependencies_db_cases maxDeps db fid ds with
      h2 | ⟨f, _, _, hok⟩
    · rw [h] at h2
      exact h2
    · rw [h] at hok
      exact absurd (congrArg Prod.fst hok) (by simp)
  · intro hacy v db2 h
    rcases add_dependency_db_cases maxDeps db fid did with
      h2 | ⟨f, hfind, hw, hok⟩
    · rw [h] at h2
      have h3 : db2 = db := h2
      rw [h3]
      exact hacy
    · rw [h] at hok
      have h3 : db2 = setRowDeps db fid
          (some (pySorted (depsOf f ++ [did]))) := congrArg Prod.snd hok
      rw [h3]
      exact add_candidate_acyclic hacy hfind hw
  · intro hacy v db2 h
    rcases set_dependencies_db_cases maxDeps db fid ds with
      h2 | ⟨f, hfind, hfc, hok⟩
    · rw [h] at h2
      have h3 : db2 = db := h2
      rw [h3]
      exact hacy
    · rw [h] at hok
      have h3 : db2 = setRowDeps db fid
          (if ds.isEmpty then none else some (pySorted ds)) :=
        congrArg Prod.snd hok
      rw [h3]
      have hacy2 := set_candidate_acyclic hacy hfind hfc
      unfold Acyclic HasCycle at hacy2 ⊢
      rw [Edge_set_commit hfind]
      exact hacy2
  · intro hacy f hfind hdid hne hlen hdup hcyc
    by_cases hw : would_create_circular_dependency db fid did = true
    · unfold feature_add_dependency
      dsimp only
      rw [show (fid == did) = false from beq_eq_false_iff_ne.mpr hne]
      simp only [Bool.false_eq_true, if_false]
      rw [hfind]
      obtain ⟨g, hg⟩ := Option.isSome_iff_exists.mp hdid
      rw [hg]
      dsimp only
      rw [if_neg (by omega : ¬ maxDeps ≤ (depsOf f).length),
        if_neg hdup, if_pos hw]
    · rw [Bool.not_eq_true] at hw
      exact absurd hcyc (add_candidate_acyclic hacy hfind hw)
  · intro hacy hself hlen hdup hfid hall hcyc
    obtain ⟨f, hfind⟩ := Option.isSome_iff_exists.mp hfid
    cases hfc : firstCircular (setRowDeps db fid (some ds)) fid ds with
    | none => exact absurd hcyc (set_candidate_acyclic hacy hfind hfc)
    | some d =>
      refine ⟨d, ?_⟩
      unfold feature_set_dependencies
      dsimp only
      rw [if_neg hself, if_neg (by omega : ¬ maxDeps < ds.length),
        if_neg (by rw [List.dedup_eq_self.mpr hdup]
                   exact fun hcon => hcon rfl),
        hfind]
      dsimp only
      have hfilter : ds.filter (fun d => !isFeatureId db d) = [] := by
        rw [List.filter_eq_nil_iff]
        intro a ha
        rw [hall a ha]
        simp
      rw [hfilter]
      simp only [List.isEmpty_nil, Bool.not_true, Bool.false_eq_true,
        if_false]
      rw [hfc]

/-- Claim C1 witness: on concrete tables, a cycle-closing add and a
cycle-closing set are rejected with the circular-dependency error, an
accepted add and an accepted set leave the committed table acyclic, and
rejected calls leave the table unchanged. -/
theorem C1_dependency_edits_cycle_safe_witness :
    feature_add_dependency 50 dbW 1 2 =
      (.error "Cannot add: would create circular dependency", dbW) ∧
    (∃ d : Nat, feature_set_dependencies 50 dbW 1 [2] =
      (.error
        s!"Cannot add dependency {d}: would create circular dependency",
       dbW)) ∧
    Acyclic (setRowDeps dbW2 1
      (some (pySorted (depsOf (mkFeature 1 1 false false none) ++ [3])))) ∧
    Acyclic (setRowDeps dbW2 3
      (if ([1] : List Nat).isEmpty then none
       else some (pySorted [1]))) ∧
    (feature_add_dependency 50 dbW 2 9).2 = dbW ∧
    (feature_set_dependencies 50 dbW 1 [9]).2 = dbW := by
  have hacyW : Acyclic dbW :=
    (hasCycleB_eq_false_iff (by decide)).mp (by decide)
  have hacyW2 : Acyclic dbW2 :=
    (hasCycleB_eq_false_iff (by decide)).mp (by decide)
  refine ⟨?_, ?_, ?_, ?_, ?_, ?_⟩
  · exact (C1_dependency_edits_cycle_safe 50 dbW 1 2 [2]).2.2.2.2.1 hacyW
      (mkFeature 1 1 false false none) (by decide) (by decide) (by decide)
      (by decide) (by decide)
      ⟨1, Relation.TransGen.head (b := 2) (by decide)
        (Relation.TransGen.single (by decide))⟩
  · exact (C1_dependency_edits_cycle_safe 50 dbW 1 2 [2]).2.2.2.2.2 hacyW
      (by decide) (by decide) (by decide) (by decide) (by decide)
      ⟨1, Relation.TransGen.head (b := 2) (by decide)
        (Relation.TransGen.single (by decide))⟩
  · exact (C1_dependency_edits_cycle_safe 50 dbW2 1 3 [1]).2.2.1 hacyW2
      { feature_id := 1, dependencies := [3] } _ (by decide)
  · exact (C1_dependency_edits_cycle_safe 50 dbW2 3 1 [1]).2.2.2.1 hacyW2
      { feature_id := 3, dependencies := [1] } _ (by decide)
  · exact (C1_dependency_edits_cycle_safe 50 dbW 2 9 []).1
      "Dependency feature 9 not found" _ (by decide)
  · exact (C1_dependency_edits_cycle_safe 50 dbW 1 9 [9]).2.1
      "Dependencies not found: [9]" _ (by decide)
